import Mathlib

/-!
Verification of the CBOR codec core and the wallet HD-payload module of the
`rust-cardano` repository, against its natural-language specification.

Bytes are modelled as `Nat` values; every byte produced by the encoders is
`< 256` by construction (`x % 256`).  Machine-integer widths are explicit
(`2 ^ 32`, `2 ^ 64`) where the source casts (`as u32`) or bounds (u64/usize)
matter.  Fallible operations return `Except`; Rust panics (arithmetic
underflow, out-of-bounds slicing) are modelled by an explicit outer layer in
`_checked` variants or an `Except RtPanic` result.
-/

namespace CborEvent

/-- Error type of the output sink, from `src/cbor_event/src/lib.rs`
(`internal::WriteError`): the only failure is running out of capacity. -/
inductive WriteError where
  | NotEnough
deriving DecidableEq, Repr

/-- The fixed-capacity sink from `src/cbor_event/src/lib.rs`
(`internal::RefBuffer`): a caller-supplied mutable byte region plus a write
offset. -/
structure RefBuffer where
  buffer : List Nat
  offset : Nat
deriving DecidableEq, Repr

/-- `impl From<&mut [u8]> for RefBuffer`: wraps a slice with offset 0. -/
def RefBuffer.fromSlice (buf : List Nat) : RefBuffer :=
  { buffer := buf, offset := 0 }

/-- `RefBuffer::write_all` from `src/cbor_event/src/lib.rs` lines 150-159.
The Rust method mutates `self` and returns `Result<(), WriteError>`; here the
post-state is returned alongside.  `self.buffer[offset..offset+to_write]
.copy_from_slice(bytes)` is the take/append/drop splice.  The usize
subtraction `buffer.len() - offset` is Nat subtraction; agreement with Rust
under the invariant `offset <= buffer.len()` is proved via
`RefBuffer.write_all_checked`. -/
def RefBuffer.write_all (s : RefBuffer) (bytes : List Nat) :
    RefBuffer × Except WriteError Unit :=
  let to_write := bytes.length
  let remaining := s.buffer.length - s.offset
  if remaining < to_write then (s, .error .NotEnough)
  else
    ({ buffer := s.buffer.take s.offset ++ bytes ++
         s.buffer.drop (s.offset + to_write),
       offset := s.offset + to_write }, .ok ())

/-- `RefBuffer::write_all` with Rust's runtime checks made explicit: `none`
models a panic.  The usize subtraction `self.buffer.len() - self.offset`
panics on underflow, and the slice `self.buffer[offset..offset+to_write]`
panics unless `offset + to_write <= buffer.len()`. -/
def RefBuffer.write_all_checked (s : RefBuffer) (bytes : List Nat) :
    Option (RefBuffer × Except WriteError Unit) :=
  if s.buffer.length < s.offset then none
  else
    let to_write := bytes.length
    let remaining := s.buffer.length - s.offset
    if remaining < to_write then some (s, .error .NotEnough)
    else if s.offset + to_write ≤ s.buffer.length then
      some ({ buffer := s.buffer.take s.offset ++ bytes ++
                s.buffer.drop (s.offset + to_write),
              offset := s.offset + to_write }, .ok ())
    else none

/-- A sequence of `write_all` calls against a fixed-capacity sink, keeping
only the sink state (each call's result is observed or ignored by the
caller, as in the Rust API). -/
def runWrites (s : RefBuffer) : List (List Nat) → RefBuffer
  | [] => s
  | w :: ws => runWrites (s.write_all w).1 ws

/-- The growable sink: `impl<T: std::io::Write> Write for T` from
`src/cbor_event/src/lib.rs` lines 129-140, instantiated at `Vec<u8>`.
`std::io::Write::write_all` for `Vec<u8>` appends and never errors, so the
repository impl never takes its `Err(WriteError::NotEnough)` branch. -/
def vecWriteAll (buf : List Nat) (bytes : List Nat) :
    List Nat × Except WriteError Unit :=
  (buf ++ bytes, .ok ())

/-- The inline-encoding bound `MAX_INLINE_ENCODING` from
`src/cbor_event/src/lib.rs` line 75. -/
def MAX_INLINE_ENCODING : Nat := 23

/-- `CBOR_PAYLOAD_LENGTH_U8` from `src/cbor_event/src/lib.rs` line 77. -/
def CBOR_PAYLOAD_LENGTH_U8 : Nat := 24

/-- `CBOR_PAYLOAD_LENGTH_U16` from `src/cbor_event/src/lib.rs` line 78. -/
def CBOR_PAYLOAD_LENGTH_U16 : Nat := 25

/-- `CBOR_PAYLOAD_LENGTH_U32` from `src/cbor_event/src/lib.rs` line 79. -/
def CBOR_PAYLOAD_LENGTH_U32 : Nat := 26

/-- `CBOR_PAYLOAD_LENGTH_U64` from `src/cbor_event/src/lib.rs` line 80. -/
def CBOR_PAYLOAD_LENGTH_U64 : Nat := 27

/-- Modelled from the spec: the `Type` enumeration from the `types` module of
`cbor_event`, which is not under `src/`; the spec (section 3) lists the eight
CBOR major categories, one per 3-bit major-type prefix. -/
inductive CborType where
  | UnsignedInteger
  | NegativeInteger
  | Bytes
  | Text
  | Array
  | Map
  | Tag
  | Special
deriving DecidableEq, Repr

/-- Modelled from the spec: the major-type dispatch on a header byte's high
3 bits (spec section 6: first byte = (major type, 3 bits) | (additional info,
5 bits)). -/
def typeOf (b : Nat) : CborType :=
  match b / 32 with
  | 0 => .UnsignedInteger
  | 1 => .NegativeInteger
  | 2 => .Bytes
  | 3 => .Text
  | 4 => .Array
  | 5 => .Map
  | 6 => .Tag
  | _ => .Special

/-- The `Len` descriptor from the `len` module (used as `Len::Len(u64)` /
indefinite by `src/wallet-crypto/src/hdpayload.rs`); the spec (section 3)
gives it as definite `Len(n)` versus `Indefinite`. -/
inductive Len where
  | Len (n : Nat)
  | Indefinite
deriving DecidableEq, Repr

/-- The codec error taxonomy from `src/cbor_event/src/error.rs`.  The
`InvalidTextError` payload (a `Utf8Error`) is irrelevant to the claims and
elided to a unit variant. -/
inductive Error where
  | ExpectedU8
  | ExpectedU16
  | ExpectedU32
  | ExpectedU64
  | ExpectedI8
  | ExpectedI16
  | ExpectedI32
  | ExpectedI64
  | ExpectedBool
  | ExpectedNull
  | ExpectedUndefined
  | ExpectedUnassigned
  | ExpectedFloat
  | ExpectedBreak
  | NotEnough (got : Nat) (expected : Nat)
  | Expected (expected : CborType) (got : CborType)
  | UnsupportedKeyType (got : CborType)
  | UnknownLenType (b : Nat)
  | IndefiniteLenNotSupported (t : CborType)
  | InvalidTextError
  | WriteError (e : WriteError)
  | CustomError (msg : String)
deriving DecidableEq, Repr

/-- Big-endian encoding of `v` on `k` bytes (the 1/2/4/8-byte payloads behind
prefixes 24-27; spec section 6). -/
def beEnc : Nat → Nat → List Nat
  | 0, _ => []
  | k + 1, v => beEnc k (v / 256) ++ [v % 256]

/-- Big-endian recomposition of a byte list. -/
def beDec (l : List Nat) : Nat :=
  l.foldl (fun acc b => acc * 256 + b) 0

/-- Modelled from the spec: the decoder-side read of a `k`-byte big-endian
payload; the width bytes must be present in the buffer before reading them
(spec section 4.3). -/
def readBE (k : Nat) (input : List Nat) : Except Error (Nat × List Nat) :=
  if input.length < k then .error (.NotEnough input.length k)
  else .ok (beDec (input.take k), input.drop k)

/-- Modelled from the spec: a CBOR item/length header for major type `major`
carrying the value or count `n`, in minimal-width canonical form (spec
sections 4.2 and 6): 0-23 inline in the first byte, 24/25/26/27 followed by
1/2/4/8 big-endian bytes.  Width thresholds come from the constants of
`src/cbor_event/src/lib.rs` lines 75-80. -/
def headerEnc (major : Nat) (n : Nat) : List Nat :=
  if n ≤ MAX_INLINE_ENCODING then [major * 32 + n]
  else if n < 2 ^ 8 then (major * 32 + CBOR_PAYLOAD_LENGTH_U8) :: beEnc 1 n
  else if n < 2 ^ 16 then (major * 32 + CBOR_PAYLOAD_LENGTH_U16) :: beEnc 2 n
  else if n < 2 ^ 32 then (major * 32 + CBOR_PAYLOAD_LENGTH_U32) :: beEnc 4 n
  else (major * 32 + CBOR_PAYLOAD_LENGTH_U64) :: beEnc 8 n

/-- Modelled from the spec: `Serializer::write_unsigned_integer` (spec
section 4.2), absent from `src/`; emits the minimal-width canonical encoding
of `v` with major type 0. -/
def writeUnsignedInteger (v : Nat) : List Nat :=
  headerEnc 0 v

/-- Modelled from the spec: `RawCbor::unsigned_integer` (spec section 4.3),
absent from `src/`.  Reads the header byte; major type must be 0; low 5 bits
0-23 are the inline value; 24/25/26/27 select a following 1/2/4/8-byte
big-endian width, whose presence is verified before reading; any other
sub-type value is a structural error.  The decoder state is the remaining
input. -/
def unsignedInteger (input : List Nat) : Except Error (Nat × List Nat) :=
  match input with
  | [] => .error (.NotEnough 0 1)
  | b :: rest =>
    if b / 32 ≠ 0 then .error (.Expected .UnsignedInteger (typeOf b))
    else
      let info := b % 32
      if info ≤ MAX_INLINE_ENCODING then .ok (info, rest)
      else if info = CBOR_PAYLOAD_LENGTH_U8 then readBE 1 rest
      else if info = CBOR_PAYLOAD_LENGTH_U16 then readBE 2 rest
      else if info = CBOR_PAYLOAD_LENGTH_U32 then readBE 4 rest
      else if info = CBOR_PAYLOAD_LENGTH_U64 then readBE 8 rest
      else .error (.UnknownLenType b)

/-- Modelled from the spec: the decoder-side read of a length header for
major type `major` (the common core of `array`/`map`/`bytes`/`text` header
reading; spec sections 4.3 and 6): additional info 0-23 inline, 24-27 widths,
31 the indefinite marker, 28-30 a structural error. -/
def readLenHeader (major : Nat) (ty : CborType) (input : List Nat) :
    Except Error (Len × List Nat) :=
  match input with
  | [] => .error (.NotEnough 0 1)
  | b :: rest =>
    if b / 32 ≠ major then .error (.Expected ty (typeOf b))
    else
      let info := b % 32
      if info ≤ MAX_INLINE_ENCODING then .ok (.Len info, rest)
      else if info = CBOR_PAYLOAD_LENGTH_U8 then
        match readBE 1 rest with
        | .error e => .error e
        | .ok (n, r) => .ok (.Len n, r)
      else if info = CBOR_PAYLOAD_LENGTH_U16 then
        match readBE 2 rest with
        | .error e => .error e
        | .ok (n, r) => .ok (.Len n, r)
      else if info = CBOR_PAYLOAD_LENGTH_U32 then
        match readBE 4 rest with
        | .error e => .error e
        | .ok (n, r) => .ok (.Len n, r)
      else if info = CBOR_PAYLOAD_LENGTH_U64 then
        match readBE 8 rest with
        | .error e => .error e
        | .ok (n, r) => .ok (.Len n, r)
      else if info = 31 then .ok (.Indefinite, rest)
      else .error (.UnknownLenType b)

/-- Modelled from the spec: `RawCbor::array` (spec section 4.3), absent from
`src/`: reads only the major-type-4 length header, returning `Len n` or
`Indefinite`; iteration over elements is caller-driven. -/
def arrayHeader (input : List Nat) : Except Error (Len × List Nat) :=
  readLenHeader 4 .Array input

/-- Modelled from the spec: `RawCbor::bytes` (spec section 4.3), absent from
`src/`: requires a definite length (indefinite fails with
`IndefiniteLenNotSupported`), which must not exceed the remaining buffer
length; returns a view of the payload and the remaining input. -/
def bytesRead (input : List Nat) : Except Error (List Nat × List Nat) :=
  match readLenHeader 2 .Bytes input with
  | .error e => .error e
  | .ok (.Indefinite, _) => .error (.IndefiniteLenNotSupported .Bytes)
  | .ok (.Len n, rest) =>
    if rest.length < n then .error (.NotEnough rest.length n)
    else .ok (rest.take n, rest.drop n)

/-- Modelled from the spec: `Serializer::write_bytes` (spec section 4.2),
absent from `src/`: a definite-length major-type-2 header followed by the raw
bytes. -/
def writeBytes (b : List Nat) : List Nat :=
  headerEnc 2 b.length ++ b

/-- Modelled from the spec: `se::serialize_fixed_array` (spec section 4.2),
absent from `src/`: a definite-length array header sized to the sequence's
count, then each element's own encoding; here specialised to unsigned-integer
elements as used by `Path::serialize`. -/
def serialize_fixed_array (xs : List Nat) : List Nat :=
  headerEnc 4 xs.length ++ (xs.map writeUnsignedInteger).flatten

/-- Modelled from the spec: `se::serialize_cbor_in_cbor` (spec sections 4.2
and 6), absent from `src/`: the argument's own already-encoded bytes are
written framed as a byte string (major type 2).  For a byte-slice argument
(the use in `HDAddressPayload::serialize`) the argument's own encoding is the
byte string `writeBytes b`, so the output frames that encoding; this matches
the spec's reversal recipe — `bytes()` followed by a fresh decoder over the
returned slice — and the two-stage read in `HDAddressPayload::deserialize`
(`src/wallet-crypto/src/hdpayload.rs` lines 141-146). -/
def serialize_cbor_in_cbor (b : List Nat) : List Nat :=
  writeBytes (writeBytes b)

end CborEvent

namespace HdPayload

open CborEvent

/-- A Rust runtime panic (usize underflow, out-of-bounds slice), made an
explicit outcome of the embedded functions that can hit one. -/
inductive RtPanic where
  | panicked
deriving DecidableEq, Repr

/-- `TAG_LEN` from `src/wallet-crypto/src/hdpayload.rs` line 16: the
authentication-tag length of the external cipher. -/
def TAG_LEN : Nat := 16

/-- Modelled from the spec: the external authenticated-encryption routine
(`rcw`'s ChaCha20Poly1305, outside this repository) is specified only at its
interface boundary (spec sections 1 and 6).  `enc key msg` returns the
ciphertext and the 16-byte tag; `dec key ct tag` returns the plaintext when
authentication succeeds.  Theorems quantify over any cipher satisfying the
interface laws (ciphertext as long as the message, 16-byte tag, decryption
under the same key returns the exact plaintext). -/
structure AEAD where
  enc : List Nat → List Nat → List Nat × List Nat
  dec : List Nat → List Nat → List Nat → Option (List Nat)

/-- `HDKEY_SIZE` from `src/wallet-crypto/src/hdpayload.rs` line 54: the byte
length of an `HDKey`. -/
def HDKEY_SIZE : Nat := 32

/-- A concrete cipher satisfying the interface laws of `AEAD`, used to
instantiate the interface-quantified theorems on concrete inputs. -/
def idAEAD : AEAD where
  enc := fun _ m => (m, List.replicate TAG_LEN 0)
  dec := fun _ c t => if t = List.replicate TAG_LEN 0 then some c else none

/-- `Path::serialize` from `src/wallet-crypto/src/hdpayload.rs` lines 35-39:
`se::serialize_fixed_array(self.0.iter(), serializer)` over the path's u32
components. -/
def Path.serialize (p : List Nat) : List Nat :=
  serialize_fixed_array p

/-- The element-reading loop of `Path::deserialize`
(`src/wallet-crypto/src/hdpayload.rs` lines 43-46): `len` iterations of
`raw.unsigned_integer()? as u32`; the `as u32` cast is `% 2 ^ 32`. -/
def readPathElems : Nat → List Nat → Except Error (List Nat × List Nat)
  | 0, rest => .ok ([], rest)
  | n + 1, rest =>
    match unsignedInteger rest with
    | .error e => .error e
    | .ok (v, rest') =>
      match readPathElems n rest' with
      | .error e => .error e
      | .ok (vs, rest'') => .ok (v % 2 ^ 32 :: vs, rest'')

/-- `Path::deserialize` from `src/wallet-crypto/src/hdpayload.rs` lines
40-52: requires a definite-length array header, else fails with the
`CustomError` below; then reads `len` unsigned integers cast to u32. -/
def Path.deserialize (input : List Nat) : Except Error (List Nat × List Nat) :=
  match arrayHeader input with
  | .error e => .error e
  | .ok (.Indefinite, _) =>
    .error (.CustomError
      "CBor derivation path does not support indefinite-length derivation path")
  | .ok (.Len n, rest) => readPathElems n rest

/-- `Path::cbor` from `src/wallet-crypto/src/hdpayload.rs` lines 29-33:
serialize to a fresh growable serializer and finalize. -/
def Path.cbor (p : List Nat) : List Nat :=
  Path.serialize p

/-- `Path::from_cbor` from `src/wallet-crypto/src/hdpayload.rs` lines 25-28:
deserialize from a fresh decoder over the bytes (trailing bytes are not
checked). -/
def Path.from_cbor (bytes : List Nat) : Except Error (List Nat) :=
  match Path.deserialize bytes with
  | .error e => .error e
  | .ok (p, _) => .ok p

/-- `HDKey::encrypt` from `src/wallet-crypto/src/hdpayload.rs` lines 83-94:
the cipher fills an output buffer of the input's length and a 16-byte tag,
and the tag is appended to the ciphertext. -/
def HDKey.encrypt (A : AEAD) (key input : List Nat) : List Nat :=
  (A.enc key input).1 ++ (A.enc key input).2

/-- `HDKey::decrypt` from `src/wallet-crypto/src/hdpayload.rs` lines 96-109.
`let len = input.len() - TAG_LEN;` is a usize subtraction computed before any
guard: for `input.len() < TAG_LEN` it underflows, which is the panic outcome.
The guard `if len <= 0 { return None; }` on the usize `len` only catches
`len == 0`.  Otherwise the cipher verifies `input[..len]` against the tag
`input[len..]`. -/
def HDKey.decrypt (A : AEAD) (key input : List Nat) :
    Except RtPanic (Option (List Nat)) :=
  if input.length < TAG_LEN then .error .panicked
  else
    let len := input.length - TAG_LEN
    if len = 0 then .ok none
    else .ok (A.dec key (input.take len) (input.drop len))

/-- `HDKey::encrypt_path` from `src/wallet-crypto/src/hdpayload.rs` lines
111-116: CBOR-encode the path, encrypt, and wrap as an `HDAddressPayload`
(whose contents are the raw vector). -/
def HDKey.encrypt_path (A : AEAD) (key path : List Nat) : List Nat :=
  HDKey.encrypt A key (Path.cbor path)

/-- `HDKey::decrypt_path` from `src/wallet-crypto/src/hdpayload.rs` lines
118-121: decrypt (propagating `None`, and here also the panic outcome), then
`Path::from_cbor(..).ok()`. -/
def HDKey.decrypt_path (A : AEAD) (key payload : List Nat) :
    Except RtPanic (Option (List Nat)) :=
  match HDKey.decrypt A key payload with
  | .error p => .error p
  | .ok none => .ok none
  | .ok (some out) =>
    .ok (match Path.from_cbor out with
         | .ok p => some p
         | .error _ => none)

/-- `HDAddressPayload::serialize` from `src/wallet-crypto/src/hdpayload.rs`
lines 136-140: `serialize_cbor_in_cbor` over the payload bytes. -/
def HDAddressPayload.serialize (payload : List Nat) : List Nat :=
  serialize_cbor_in_cbor payload

/-- `HDAddressPayload::deserialize` from `src/wallet-crypto/src/hdpayload.rs`
lines 141-146: read one byte string from the outer decoder, construct a fresh
decoder over the returned slice, and read one byte string from it (leftover
bytes of the inner decoder are dropped). -/
def HDAddressPayload.deserialize (input : List Nat) :
    Except Error (List Nat × List Nat) :=
  match bytesRead input with
  | .error e => .error e
  | .ok (s, rest) =>
    match bytesRead s with
    | .error e => .error e
    | .ok (b, _) => .ok (b, rest)

end HdPayload

namespace CborEvent

theorem beEnc_length (k v : Nat) : (beEnc k v).length = k := by
  induction k generalizing v with
  | zero => simp [beEnc]
  | succ k ih => simp [beEnc, ih]

theorem beEnc_foldl (k : Nat) :
    ∀ v a, v < 256 ^ k →
      (beEnc k v).foldl (fun acc b => acc * 256 + b) a = a * 256 ^ k + v := by
  induction k with
  | zero => intro v a hv; simp [beEnc]; omega
  | succ k ih =>
    intro v a hv
    have hdiv : v / 256 < 256 ^ k := by
      rw [Nat.div_lt_iff_lt_mul (by norm_num)]
      calc v < 256 ^ (k + 1) := hv
        _ = 256 ^ k * 256 := by ring
    have hmod := Nat.div_add_mod v 256
    simp only [beEnc, List.foldl_append, ih (v / 256) a hdiv, List.foldl]
    calc (a * 256 ^ k + v / 256) * 256 + v % 256
        = a * 256 ^ (k + 1) + (256 * (v / 256) + v % 256) := by ring
      _ = a * 256 ^ (k + 1) + v := by rw [hmod]

theorem beDec_beEnc (k v : Nat) (hv : v < 256 ^ k) : beDec (beEnc k v) = v := by
  have := beEnc_foldl k v 0 hv
  simpa [beDec] using this

theorem readBE_beEnc (k v : Nat) (rest : List Nat) (hv : v < 256 ^ k) :
    readBE k (beEnc k v ++ rest) = .ok (v, rest) := by
  have hlen : (beEnc k v).length = k := beEnc_length k v
  simp [readBE, hlen, List.take_left' hlen, List.drop_left' hlen,
    beDec_beEnc k v hv]

theorem hdr_div (major info : Nat) (h : info < 32) :
    (major * 32 + info) / 32 = major := by omega

theorem hdr_mod (major info : Nat) (h : info < 32) :
    (major * 32 + info) % 32 = info := by omega

theorem readLenHeader_headerEnc (major : Nat) (ty : CborType) (n : Nat)
    (rest : List Nat) (hn : n < 2 ^ 64) :
    readLenHeader major ty (headerEnc major n ++ rest) = .ok (.Len n, rest) := by
  by_cases h0 : n ≤ 23
  · have hd := hdr_div major n (by omega)
    have hm := hdr_mod major n (by omega)
    simp [headerEnc, MAX_INLINE_ENCODING, CBOR_PAYLOAD_LENGTH_U8, CBOR_PAYLOAD_LENGTH_U16, CBOR_PAYLOAD_LENGTH_U32, CBOR_PAYLOAD_LENGTH_U64, readLenHeader, h0, hd, hm]
  · by_cases h1 : n < 256
    · have hd := hdr_div major 24 (by omega)
      have hm := hdr_mod major 24 (by omega)
      simp [headerEnc, MAX_INLINE_ENCODING, CBOR_PAYLOAD_LENGTH_U8, CBOR_PAYLOAD_LENGTH_U16, CBOR_PAYLOAD_LENGTH_U32, CBOR_PAYLOAD_LENGTH_U64, h0, h1,
        readLenHeader, hd, hm, readBE_beEnc 1 n rest (by norm_num; omega)]
    · by_cases h2 : n < 65536
      · have hd := hdr_div major 25 (by omega)
        have hm := hdr_mod major 25 (by omega)
        simp [headerEnc, MAX_INLINE_ENCODING, CBOR_PAYLOAD_LENGTH_U8, CBOR_PAYLOAD_LENGTH_U16, CBOR_PAYLOAD_LENGTH_U32, CBOR_PAYLOAD_LENGTH_U64, h0, h1,
          h2, readLenHeader, hd, hm, readBE_beEnc 2 n rest (by norm_num; omega)]
      · by_cases h3 : n < 4294967296
        · have hd := hdr_div major 26 (by omega)
          have hm := hdr_mod major 26 (by omega)
          simp [headerEnc, MAX_INLINE_ENCODING, CBOR_PAYLOAD_LENGTH_U8, CBOR_PAYLOAD_LENGTH_U16, CBOR_PAYLOAD_LENGTH_U32, CBOR_PAYLOAD_LENGTH_U64, h0,
            h1, h2, h3, readLenHeader, hd, hm,
            readBE_beEnc 4 n rest (by norm_num; omega)]
        · have hd := hdr_div major 27 (by omega)
          have hm := hdr_mod major 27 (by omega)
          simp [headerEnc, MAX_INLINE_ENCODING, CBOR_PAYLOAD_LENGTH_U8, CBOR_PAYLOAD_LENGTH_U16, CBOR_PAYLOAD_LENGTH_U32, CBOR_PAYLOAD_LENGTH_U64, h0,
            h1, h2, h3, readLenHeader, hd, hm,
            readBE_beEnc 8 n rest (by norm_num at hn ⊢; omega)]

theorem unsignedInteger_writeUnsignedInteger (v : Nat) (rest : List Nat)
    (hv : v < 2 ^ 64) :
    unsignedInteger (writeUnsignedInteger v ++ rest) = .ok (v, rest) := by
  by_cases h0 : v ≤ 23
  · simp [writeUnsignedInteger, headerEnc, MAX_INLINE_ENCODING, CBOR_PAYLOAD_LENGTH_U8, CBOR_PAYLOAD_LENGTH_U16, CBOR_PAYLOAD_LENGTH_U32, CBOR_PAYLOAD_LENGTH_U64, h0,
      unsignedInteger, Nat.div_eq_of_lt (show v < 32 by omega),
      Nat.mod_eq_of_lt (show v < 32 by omega)]
  · by_cases h1 : v < 256
    · simp [writeUnsignedInteger, headerEnc, MAX_INLINE_ENCODING, CBOR_PAYLOAD_LENGTH_U8, CBOR_PAYLOAD_LENGTH_U16, CBOR_PAYLOAD_LENGTH_U32, CBOR_PAYLOAD_LENGTH_U64, h0, h1, unsignedInteger,
        readBE_beEnc 1 v rest (by norm_num; omega)]
    · by_cases h2 : v < 65536
      · simp [writeUnsignedInteger, headerEnc, MAX_INLINE_ENCODING, CBOR_PAYLOAD_LENGTH_U8, CBOR_PAYLOAD_LENGTH_U16, CBOR_PAYLOAD_LENGTH_U32, CBOR_PAYLOAD_LENGTH_U64, h0, h1, h2,
          unsignedInteger, readBE_beEnc 2 v rest (by norm_num; omega)]
      · by_cases h3 : v < 4294967296
        · simp [writeUnsignedInteger, headerEnc, MAX_INLINE_ENCODING, CBOR_PAYLOAD_LENGTH_U8, CBOR_PAYLOAD_LENGTH_U16, CBOR_PAYLOAD_LENGTH_U32, CBOR_PAYLOAD_LENGTH_U64, h0, h1, h2, h3, unsignedInteger,
            readBE_beEnc 4 v rest (by norm_num; omega)]
        · simp [writeUnsignedInteger, headerEnc, MAX_INLINE_ENCODING, CBOR_PAYLOAD_LENGTH_U8, CBOR_PAYLOAD_LENGTH_U16, CBOR_PAYLOAD_LENGTH_U32, CBOR_PAYLOAD_LENGTH_U64, h0, h1, h2, h3,
            unsignedInteger, readBE_beEnc 8 v rest (by norm_num at hv ⊢; omega)]

theorem bytesRead_writeBytes (b rest : List Nat) (hb : b.length < 2 ^ 64) :
    bytesRead (writeBytes b ++ rest) = .ok (b, rest) := by
  have hhdr := readLenHeader_headerEnc 2 .Bytes b.length (b ++ rest) hb
  simp only [writeBytes, List.append_assoc]
  simp [bytesRead, hhdr, List.take_left' (rfl : b.length = b.length),
    List.drop_left' (rfl : b.length = b.length)]

theorem headerEnc_length_le (major n : Nat) : (headerEnc major n).length ≤ 9 := by
  unfold headerEnc
  split_ifs <;> simp [beEnc_length]

theorem headerEnc_length_pos (major n : Nat) : 0 < (headerEnc major n).length := by
  unfold headerEnc
  split_ifs <;> simp [beEnc_length]

theorem write_all_step (s : RefBuffer) (w : List Nat)
    (h : s.offset ≤ s.buffer.length) :
    (s.write_all w).1.buffer.length = s.buffer.length ∧
    (s.write_all w).1.offset ≤ (s.write_all w).1.buffer.length ∧
    s.offset ≤ (s.write_all w).1.offset := by
  unfold RefBuffer.write_all
  by_cases hc : s.buffer.length - s.offset < w.length
  · simp [hc, h]
  · simp only [hc, if_false]
    refine ⟨?_, ?_, ?_⟩
    · simp [List.length_take, List.length_drop]
      omega
    · simp [List.length_take, List.length_drop]
      omega
    · simp

theorem runWrites_inv (ws : List (List Nat)) (s : RefBuffer)
    (h : s.offset ≤ s.buffer.length) :
    (runWrites s ws).buffer.length = s.buffer.length ∧
    (runWrites s ws).offset ≤ (runWrites s ws).buffer.length ∧
    s.offset ≤ (runWrites s ws).offset := by
  induction ws generalizing s with
  | nil => exact ⟨rfl, h, le_refl _⟩
  | cons w ws ih =>
    have hstep := write_all_step s w h
    have hrec := ih (s.write_all w).1 hstep.2.1
    simp only [runWrites]
    exact ⟨hrec.1.trans hstep.1, hrec.2.1, hstep.2.2.trans hrec.2.2⟩

theorem runWrites_append (l₁ l₂ : List (List Nat)) (s : RefBuffer) :
    runWrites s (l₁ ++ l₂) = runWrites (runWrites s l₁) l₂ := by
  induction l₁ generalizing s with
  | nil => rfl
  | cons w ws ih => simp only [List.cons_append, runWrites]; exact ih _

end CborEvent

namespace HdPayload

open CborEvent

theorem readPathElems_flatten (p : List Nat) (rest : List Nat)
    (h32 : ∀ x ∈ p, x < 2 ^ 32) :
    readPathElems p.length ((p.map writeUnsignedInteger).flatten ++ rest) =
      .ok (p, rest) := by
  induction p with
  | nil => simp [readPathElems]
  | cons x p ih =>
    have hx : x < 2 ^ 32 := h32 x (List.mem_cons_self x p)
    have hx64 : x < 2 ^ 64 := lt_of_lt_of_le hx (by norm_num)
    have hmod : x % 2 ^ 32 = x := Nat.mod_eq_of_lt hx
    have hrec := ih (fun y hy => h32 y (List.mem_cons_of_mem x hy))
    simp only [List.map_cons, List.flatten_cons, List.length_cons,
      List.append_assoc, readPathElems,
      unsignedInteger_writeUnsignedInteger x _ hx64, hrec, hmod]

theorem path_roundtrip (p : List Nat) (rest : List Nat)
    (h32 : ∀ x ∈ p, x < 2 ^ 32) (hlen : p.length < 2 ^ 64) :
    Path.deserialize (Path.serialize p ++ rest) = .ok (p, rest) := by
  have hhdr := readLenHeader_headerEnc 4 .Array p.length
    ((p.map writeUnsignedInteger).flatten ++ rest) hlen
  simp only [Path.serialize, serialize_fixed_array, List.append_assoc]
  simp [Path.deserialize, arrayHeader, hhdr, readPathElems_flatten p rest h32]

end HdPayload

namespace CborEvent

/-- Claim C1: for every fixed-capacity sink state with `offset <= buffer
length` and every byte sequence, `RefBuffer::write_all` either (a) fails with
`WriteError::NotEnough` and leaves the buffer contents and offset exactly as
they were when the bytes exceed the remaining capacity, or (b) returns `Ok`,
copies the bytes into `buffer[offset..offset+len]` leaving everything outside
that range unchanged, and advances the offset by the byte count. -/
theorem write_all_rejects_whole_or_copies (s : RefBuffer) (bytes : List Nat)
    (h : s.offset ≤ s.buffer.length) :
    (s.buffer.length - s.offset < bytes.length →
      s.write_all bytes = (s, .error .NotEnough)) ∧
    (bytes.length ≤ s.buffer.length - s.offset →
      (s.write_all bytes).2 = .ok () ∧
      (s.write_all bytes).1.offset = s.offset + bytes.length ∧
      (s.write_all bytes).1.buffer.length = s.buffer.length ∧
      (s.write_all bytes).1.buffer.take s.offset = s.buffer.take s.offset ∧
      ((s.write_all bytes).1.buffer.drop s.offset).take bytes.length = bytes ∧
      (s.write_all bytes).1.buffer.drop (s.offset + bytes.length) =
        s.buffer.drop (s.offset + bytes.length)) := by
  constructor
  · intro hlt
    simp [RefBuffer.write_all, hlt]
  · intro hle
    have hc : ¬ s.buffer.length - s.offset < bytes.length := by omega
    have hA : (s.buffer.take s.offset).length = s.offset := by
      simp [List.length_take]
      omega
    have hAB : (s.buffer.take s.offset ++ bytes).length =
        s.offset + bytes.length := by
      simp [hA]
    have hw : s.write_all bytes =
        ({ buffer := s.buffer.take s.offset ++ bytes ++
             s.buffer.drop (s.offset + bytes.length),
           offset := s.offset + bytes.length }, .ok ()) := by
      simp [RefBuffer.write_all, hc]
    rw [hw]
    refine ⟨rfl, rfl, ?_, ?_, ?_, ?_⟩
    · simp only [List.length_append, List.length_take, List.length_drop]
      omega
    · rw [List.append_assoc]
      exact List.take_left' hA
    · rw [List.append_assoc, List.drop_left' hA]
      exact List.take_left' rfl
    · exact List.drop_left' hAB

/-- Witness for C1 at a concrete sink and write. -/
theorem write_all_rejects_whole_or_copies_witness :
    (1 : Nat) ≤ ([1, 2, 3, 4] : List Nat).length ∧
    ((({ buffer := [1, 2, 3, 4], offset := 1 } : RefBuffer).buffer.length - 1 <
        ([9, 9] : List Nat).length →
      RefBuffer.write_all { buffer := [1, 2, 3, 4], offset := 1 } [9, 9] =
        ({ buffer := [1, 2, 3, 4], offset := 1 }, .error .NotEnough)) ∧
    (([9, 9] : List Nat).length ≤
        ({ buffer := [1, 2, 3, 4], offset := 1 } : RefBuffer).buffer.length - 1 →
      (RefBuffer.write_all { buffer := [1, 2, 3, 4], offset := 1 } [9, 9]).2 =
        .ok () ∧
      (RefBuffer.write_all { buffer := [1, 2, 3, 4], offset := 1 }
        [9, 9]).1.offset = 1 + ([9, 9] : List Nat).length ∧
      (RefBuffer.write_all { buffer := [1, 2, 3, 4], offset := 1 }
        [9, 9]).1.buffer.length =
        (({ buffer := [1, 2, 3, 4], offset := 1 } : RefBuffer)).buffer.length ∧
      (RefBuffer.write_all { buffer := [1, 2, 3, 4], offset := 1 }
        [9, 9]).1.buffer.take 1 =
        (([1, 2, 3, 4] : List Nat)).take 1 ∧
      ((RefBuffer.write_all { buffer := [1, 2, 3, 4], offset := 1 }
        [9, 9]).1.buffer.drop 1).take ([9, 9] : List Nat).length = [9, 9] ∧
      (RefBuffer.write_all { buffer := [1, 2, 3, 4], offset := 1 }
        [9, 9]).1.buffer.drop (1 + ([9, 9] : List Nat).length) =
        (([1, 2, 3, 4] : List Nat)).drop (1 + ([9, 9] : List Nat).length))) :=
  ⟨by norm_num,
   write_all_rejects_whole_or_copies
     { buffer := [1, 2, 3, 4], offset := 1 } [9, 9] (by norm_num)⟩

/-- Claim C2: under the invariant `offset <= buffer length`, `write_all`
performs no underflowing subtraction and no out-of-bounds access: the run of
the source with every runtime check made explicit (`write_all_checked`, where
`none` is a panic) completes and agrees with the unchecked embedding. -/
theorem write_all_never_panics (s : RefBuffer) (bytes : List Nat)
    (h : s.offset ≤ s.buffer.length) :
    s.write_all_checked bytes = some (s.write_all bytes) := by
  unfold RefBuffer.write_all_checked RefBuffer.write_all
  have h1 : ¬ s.buffer.length < s.offset := by omega
  by_cases hc : s.buffer.length - s.offset < bytes.length
  · simp [h1, hc]
  · have h2 : s.offset + bytes.length ≤ s.buffer.length := by omega
    simp [h1, hc, h2]

/-- Witness for C2 at a concrete sink and write. -/
theorem write_all_never_panics_witness :
    (2 : Nat) ≤ ([5, 6, 7] : List Nat).length ∧
    RefBuffer.write_all_checked { buffer := [5, 6, 7], offset := 2 } [8] =
      some (RefBuffer.write_all { buffer := [5, 6, 7], offset := 2 } [8]) :=
  ⟨by norm_num,
   write_all_never_panics { buffer := [5, 6, 7], offset := 2 } [8] (by norm_num)⟩

/-- Claim C3: `write_unsigned_integer` emits the minimal-width canonical CBOR
encoding: 0-23 inline in the first byte, 24-255 behind prefix 24 plus one
byte, 256-65535 behind prefix 25 plus two bytes, values below `2^32` behind
prefix 26 plus four bytes, and all other u64 values behind prefix 27 plus
eight bytes; in particular 23 encodes to `[0x17]`, 24 to `[0x18, 0x18]`,
256 to `[0x19, 0x01, 0x00]`, and `2^32` to 9 bytes beginning `0x1b`. -/
theorem write_unsigned_integer_minimal_width (v : Nat) (hv : v < 2 ^ 64) :
    (v ≤ 23 → writeUnsignedInteger v = [v]) ∧
    (24 ≤ v → v ≤ 255 → writeUnsignedInteger v = [24, v]) ∧
    (256 ≤ v → v ≤ 65535 →
      writeUnsignedInteger v = [25, v / 2 ^ 8 % 256, v % 256]) ∧
    (65536 ≤ v → v < 2 ^ 32 →
      writeUnsignedInteger v =
        [26, v / 2 ^ 24 % 256, v / 2 ^ 16 % 256, v / 2 ^ 8 % 256, v % 256]) ∧
    (2 ^ 32 ≤ v →
      writeUnsignedInteger v =
        [27, v / 2 ^ 56 % 256, v / 2 ^ 48 % 256, v / 2 ^ 40 % 256,
         v / 2 ^ 32 % 256, v / 2 ^ 24 % 256, v / 2 ^ 16 % 256,
         v / 2 ^ 8 % 256, v % 256]) ∧
    writeUnsignedInteger 23 = [0x17] ∧
    writeUnsignedInteger 24 = [0x18, 0x18] ∧
    writeUnsignedInteger 256 = [0x19, 0x01, 0x00] ∧
    (writeUnsignedInteger (2 ^ 32)).length = 9 ∧
    (writeUnsignedInteger (2 ^ 32)).head? = some 0x1b := by
  refine ⟨?_, ?_, ?_, ?_, ?_, rfl, rfl, rfl, rfl, rfl⟩
  · intro h0
    simp [writeUnsignedInteger, headerEnc, MAX_INLINE_ENCODING, h0]
  · intro h0 h1
    have h0' : ¬ v ≤ 23 := by omega
    have h1' : v < 256 := by omega
    simp [writeUnsignedInteger, headerEnc, MAX_INLINE_ENCODING,
      CBOR_PAYLOAD_LENGTH_U8, h0', h1', beEnc, Nat.mod_eq_of_lt h1']
  · intro h0 h1
    have h0' : ¬ v ≤ 23 := by omega
    have h1' : ¬ v < 256 := by omega
    have h2' : v < 65536 := by omega
    simp [writeUnsignedInteger, headerEnc, MAX_INLINE_ENCODING,
      CBOR_PAYLOAD_LENGTH_U16, h0', h1', h2', beEnc, Nat.div_div_eq_div_mul]
  · intro h0 h1
    have h0' : ¬ v ≤ 23 := by omega
    have h1' : ¬ v < 256 := by omega
    have h2' : ¬ v < 65536 := by omega
    have h3' : v < 4294967296 := by omega
    simp [writeUnsignedInteger, headerEnc, MAX_INLINE_ENCODING,
      CBOR_PAYLOAD_LENGTH_U32, h0', h1', h2', h3', beEnc,
      Nat.div_div_eq_div_mul]
  · intro h0
    have h0' : ¬ v ≤ 23 := by omega
    have h1' : ¬ v < 256 := by omega
    have h2' : ¬ v < 65536 := by omega
    have h3' : ¬ v < 4294967296 := by omega
    simp [writeUnsignedInteger, headerEnc, MAX_INLINE_ENCODING,
      CBOR_PAYLOAD_LENGTH_U64, h0', h1', h2', h3', beEnc,
      Nat.div_div_eq_div_mul]

/-- Witness for C3 at the boundary value 256. -/
theorem write_unsigned_integer_minimal_width_witness :
    (256 : Nat) < 2 ^ 64 ∧
    (256 ≤ 256 → 256 ≤ 65535 →
      writeUnsignedInteger 256 = [25, 256 / 2 ^ 8 % 256, 256 % 256]) :=
  ⟨by norm_num,
   (write_unsigned_integer_minimal_width 256 (by norm_num)).2.2.1⟩

/-- Claim C4: for every u64 value (covering in particular the boundary set
{0, 23, 24, 255, 256, 65535, 65536, 2^32-1, 2^32, 2^64-1}), encoding with
`write_unsigned_integer` and decoding with `unsigned_integer` returns exactly
the value, leaving the decoder positioned at the end of the item (the
remaining input is exactly the trailing bytes). -/
theorem unsigned_integer_roundtrip (v : Nat) (rest : List Nat)
    (hv : v < 2 ^ 64) :
    unsignedInteger (writeUnsignedInteger v ++ rest) = .ok (v, rest) :=
  unsignedInteger_writeUnsignedInteger v rest hv

/-- Witness for C4 at the boundary value 2^32. -/
theorem unsigned_integer_roundtrip_witness :
    (2 ^ 32 : Nat) < 2 ^ 64 ∧
    unsignedInteger (writeUnsignedInteger (2 ^ 32) ++ [7]) =
      .ok (2 ^ 32, [7]) :=
  ⟨by norm_num, unsigned_integer_roundtrip (2 ^ 32) [7] (by norm_num)⟩

end CborEvent

namespace CborEvent

/-- Claim C7: starting from a freshly constructed `RefBuffer` (offset 0),
every sequence of `write_all` calls — succeeding or failing — preserves
`offset <= buffer length`, never grows the buffer, and never decreases the
offset (each call's post-offset is at least its pre-offset). -/
theorem ref_buffer_offset_monotone_invariant (buf : List Nat)
    (ws : List (List Nat)) :
    (runWrites (RefBuffer.fromSlice buf) ws).buffer.length = buf.length ∧
    (runWrites (RefBuffer.fromSlice buf) ws).offset ≤ buf.length ∧
    ∀ n : Nat, (runWrites (RefBuffer.fromSlice buf) (ws.take n)).offset ≤
      (runWrites (RefBuffer.fromSlice buf) (ws.take (n + 1))).offset := by
  have hbase : (RefBuffer.fromSlice buf).offset ≤
      (RefBuffer.fromSlice buf).buffer.length := by
    simp [RefBuffer.fromSlice]
  have hinv := runWrites_inv ws _ hbase
  refine ⟨hinv.1, ?_, ?_⟩
  · have h2 := hinv.2.1
    rw [hinv.1] at h2
    exact h2
  · intro n
    by_cases hn : n < ws.length
    · have htake : ws.take (n + 1) = ws.take n ++ [ws.get ⟨n, hn⟩] := by
        rw [List.take_succ]
        simp [List.getElem?_eq_getElem hn]
      rw [htake, runWrites_append]
      have hinvn := runWrites_inv (ws.take n) _ hbase
      have hstep := write_all_step (runWrites (RefBuffer.fromSlice buf)
        (ws.take n)) (ws.get ⟨n, hn⟩) hinvn.2.1
      simpa [runWrites] using hstep.2.2
    · have h1 : ws.take n = ws := List.take_of_length_le (by omega)
      have h2 : ws.take (n + 1) = ws := List.take_of_length_le (by omega)
      rw [h1, h2]

/-- Claim C8: for the growable Vec-backed sink, `write_all` returns `Ok` for
every byte sequence and appends the bytes: encoding to a fresh growable
buffer never produces a capacity error. -/
theorem vec_write_all_always_ok (buf bytes : List Nat) :
    (vecWriteAll buf bytes).2 = .ok () ∧
    (vecWriteAll buf bytes).1 = buf ++ bytes :=
  ⟨rfl, rfl⟩

end CborEvent

namespace HdPayload

open CborEvent

/-- Claim C5: `serialize_cbor_in_cbor` frames its argument's encoding as a
byte string: reading the outer byte string back with `bytes()` and building a
fresh decoder over the returned slice reproduces the inner bytes exactly, and
in particular `HDAddressPayload::deserialize` applied to the output of
`HDAddressPayload::serialize` recovers the original payload bytes and leaves
the outer decoder past the item. -/
theorem cbor_in_cbor_roundtrip (inner p rest : List Nat)
    (hi : inner.length + 9 < 2 ^ 64) (hp : p.length + 9 < 2 ^ 64) :
    bytesRead (serialize_cbor_in_cbor inner ++ rest) =
      .ok (writeBytes inner, rest) ∧
    bytesRead (writeBytes inner) = .ok (inner, []) ∧
    HDAddressPayload.deserialize (HDAddressPayload.serialize p ++ rest) =
      .ok (p, rest) := by
  have hwb : ∀ b : List Nat, b.length + 9 < 2 ^ 64 →
      (writeBytes b).length < 2 ^ 64 := by
    intro b hb
    have hh := headerEnc_length_le 2 b.length
    simp only [writeBytes, List.length_append]
    omega
  have hinner : bytesRead (writeBytes inner) = .ok (inner, []) := by
    have := bytesRead_writeBytes inner [] (by omega)
    simpa using this
  refine ⟨?_, hinner, ?_⟩
  · exact bytesRead_writeBytes (writeBytes inner) rest (hwb inner hi)
  · have h1 : bytesRead (writeBytes (writeBytes p) ++ rest) =
        .ok (writeBytes p, rest) :=
      bytesRead_writeBytes (writeBytes p) rest (hwb p hp)
    have h2 : bytesRead (writeBytes p) = .ok (p, []) := by
      have := bytesRead_writeBytes p [] (by omega)
      simpa using this
    simp [HDAddressPayload.deserialize, HDAddressPayload.serialize,
      serialize_cbor_in_cbor, h1, h2]

/-- Witness for C5 at a concrete inner document and payload. -/
theorem cbor_in_cbor_roundtrip_witness :
    ([1, 2, 3] : List Nat).length + 9 < 2 ^ 64 ∧
    ([9, 8] : List Nat).length + 9 < 2 ^ 64 ∧
    (bytesRead (serialize_cbor_in_cbor [1, 2, 3] ++ [5]) =
      .ok (writeBytes [1, 2, 3], [5]) ∧
     bytesRead (writeBytes [1, 2, 3]) = .ok ([1, 2, 3], []) ∧
     HDAddressPayload.deserialize (HDAddressPayload.serialize [9, 8] ++ [5]) =
      .ok ([9, 8], [5])) :=
  ⟨by norm_num, by norm_num,
   cbor_in_cbor_roundtrip [1, 2, 3] [9, 8] [5] (by norm_num) (by norm_num)⟩

/-- Claim C6: for every derivation path and every key, under any
authenticated cipher satisfying the interface laws (ciphertext as long as the
message, 16-byte tag, decryption under the same key returns the exact
plaintext), `decrypt_path` after `encrypt_path` recovers exactly the original
path. -/
theorem encrypt_path_decrypt_path_roundtrip (A : AEAD) (key path : List Nat)
    (hdec : ∀ k m, A.dec k (A.enc k m).1 (A.enc k m).2 = some m)
    (hclen : ∀ k m, (A.enc k m).1.length = m.length)
    (htag : ∀ k m, (A.enc k m).2.length = TAG_LEN)
    (h32 : ∀ x ∈ path, x < 2 ^ 32) (hlen : path.length < 2 ^ 64) :
    HDKey.decrypt_path A key (HDKey.encrypt_path A key path) =
      .ok (some path) := by
  have hmpos : 0 < (Path.cbor path).length := by
    have hh := headerEnc_length_pos 4 path.length
    simp only [Path.cbor, Path.serialize, serialize_fixed_array,
      List.length_append]
    omega
  have hc := hclen key (Path.cbor path)
  have ht := htag key (Path.cbor path)
  have hlen' : (HDKey.encrypt A key (Path.cbor path)).length =
      (Path.cbor path).length + TAG_LEN := by
    simp [HDKey.encrypt, hc, ht]
  have hnotlt : ¬ (HDKey.encrypt A key (Path.cbor path)).length < TAG_LEN := by
    omega
  have hlenne : (HDKey.encrypt A key (Path.cbor path)).length - TAG_LEN ≠ 0 := by
    omega
  have hsub : (HDKey.encrypt A key (Path.cbor path)).length - TAG_LEN =
      (Path.cbor path).length := by
    omega
  have htake : (HDKey.encrypt A key (Path.cbor path)).take
      ((Path.cbor path).length) = (A.enc key (Path.cbor path)).1 := by
    simp only [HDKey.encrypt]
    exact List.take_left' hc
  have hdrop : (HDKey.encrypt A key (Path.cbor path)).drop
      ((Path.cbor path).length) = (A.enc key (Path.cbor path)).2 := by
    simp only [HDKey.encrypt]
    exact List.drop_left' hc
  have hd : HDKey.decrypt A key (HDKey.encrypt A key (Path.cbor path)) =
      .ok (some (Path.cbor path)) := by
    simp only [HDKey.decrypt, hnotlt, if_false, hsub]
    rw [if_neg (by omega), htake, hdrop, hdec key (Path.cbor path)]
  have hpath : Path.from_cbor (Path.cbor path) = .ok path := by
    have hrt := path_roundtrip path [] h32 hlen
    simp only [List.append_nil] at hrt
    simp [Path.from_cbor, Path.cbor, hrt]
  simp [HDKey.encrypt_path, HDKey.decrypt_path, hd, hpath]

/-- Witness for C6 at a concrete cipher, key, and path. -/
theorem encrypt_path_decrypt_path_roundtrip_witness :
    (∀ k m, idAEAD.dec k (idAEAD.enc k m).1 (idAEAD.enc k m).2 = some m) ∧
    (∀ k m, (idAEAD.enc k m).1.length = m.length) ∧
    (∀ k m, (idAEAD.enc k m).2.length = TAG_LEN) ∧
    (∀ x ∈ ([0, 1, 2] : List Nat), x < 2 ^ 32) ∧
    ([0, 1, 2] : List Nat).length < 2 ^ 64 ∧
    HDKey.decrypt_path idAEAD (List.replicate HDKEY_SIZE 0)
      (HDKey.encrypt_path idAEAD (List.replicate HDKEY_SIZE 0) [0, 1, 2]) =
      .ok (some [0, 1, 2]) :=
  ⟨fun k m => by simp [idAEAD],
   fun k m => rfl,
   fun k m => by simp [idAEAD],
   by decide,
   by norm_num,
   encrypt_path_decrypt_path_roundtrip idAEAD (List.replicate HDKEY_SIZE 0)
     [0, 1, 2] (fun k m => by simp [idAEAD]) (fun k m => rfl)
     (fun k m => by simp [idAEAD]) (by decide) (by norm_num)⟩

/-- Claim C9 (evaluation at the failing inputs): `HDKey::decrypt` on an input
no longer than `TAG_LEN` is claimed to return `None` without panicking, but
the usize subtraction `input.len() - TAG_LEN` is computed before any guard:
for inputs shorter than 16 bytes it underflows (the panic outcome of the
embedding); only the exact length 16 is caught by the `len <= 0` guard. -/
theorem decrypt_short_input_panics :
    HDKey.decrypt idAEAD (List.replicate HDKEY_SIZE 0) [] =
      .error .panicked ∧
    HDKey.decrypt idAEAD (List.replicate HDKEY_SIZE 0)
      (List.replicate 15 0) = .error .panicked ∧
    HDKey.decrypt idAEAD (List.replicate HDKEY_SIZE 0)
      (List.replicate 16 0) = .ok none :=
  ⟨rfl, rfl, rfl⟩

/-- Claim C10: `Path::deserialize` rejects indefinite-length arrays: on any
input whose next item is the indefinite array header `0x9f`, it returns the
`CustomError` from the source rather than reading elements to a break
marker. -/
theorem path_deserialize_rejects_indefinite (rest : List Nat) :
    arrayHeader (0x9f :: rest) = .ok (.Indefinite, rest) ∧
    Path.deserialize (0x9f :: rest) =
      .error (.CustomError
        "CBor derivation path does not support indefinite-length derivation path") := by
  have hhdr : arrayHeader (0x9f :: rest) = .ok (.Indefinite, rest) := by
    simp [arrayHeader, readLenHeader, MAX_INLINE_ENCODING,
      CBOR_PAYLOAD_LENGTH_U8, CBOR_PAYLOAD_LENGTH_U16,
      CBOR_PAYLOAD_LENGTH_U32, CBOR_PAYLOAD_LENGTH_U64]
  exact ⟨hhdr, by simp [Path.deserialize, hhdr]⟩

end HdPayload
